import Mathlib

/-!
Shallow embedding of `src/src/http.cpp` (generic host HTTP I/O layer of a
client-access SDK), together with a spec-modelled stand-in for the external
`SymmCipher` counter-mode encryption collaborator (declared in headers that
are not part of `src/`).

Conventions of the embedding:
* byte buffers are `List Nat`; machine-integer truncation is irrelevant for
  the verified properties, and out-of-range pointer arithmetic (C++ UB) is
  excluded by explicit hypotheses on the theorems;
* the `std::string` member `in` is `inBuf` (`in` is a Lean keyword) and the
  out-buffer `*out = &outbuf` is `outBuf`;
* `chunkmac_map` is a total map `Nat → Option Nat` from chunk start offset
  to the (abstracted, single-value) authentication tag;
* fallible operations (null-pointer dereference in C++) return `Option`.
-/

namespace HttpModel

/-- Block size of the external cipher collaborator (a 16-byte block cipher,
as in the spec's scenario). -/
def SymmCipher.BLOCKSIZE : Nat := 16

/-- Modelled from the spec: the external encryption contract is missing from
`src/` (only `SymmCipher::ctr_crypt` call sites are present).  A counter-mode
transform is "a stream-cipher operation keyed by a per-file seed and a byte
offset"; we realise the keystream as a concrete deterministic function of the
key, the counter seed, the byte offset and the byte index. -/
def SymmCipher.keystream (key ctriv pos i : Nat) : Nat :=
  (key * 11 + ctriv * 13 + (pos + i) * 7) % 256

/-- XOR a byte list against the keystream starting at byte index `i` of the
stream position `pos` (counter mode: encryption and decryption are the same
XOR transform). -/
def SymmCipher.ctrStream (key ctriv pos : Nat) : Nat → List Nat → List Nat
  | _, [] => []
  | i, b :: bs =>
      (b ^^^ SymmCipher.keystream key ctriv pos i) ::
        SymmCipher.ctrStream key ctriv pos (i + 1) bs

/-- Modelled from the spec: the per-chunk authentication tag is a
deterministic function of the key material, the counter seed, the byte offset
and the plaintext (the tag is abstracted to a single `Nat` value). -/
def SymmCipher.chunkMac (key ctriv pos : Nat) (pt : List Nat) : Nat :=
  pt.foldl (fun a b => a * 257 + b + 1) (key * 3 + ctriv * 5 + pos)

/-- Modelled from the spec: the external contract
`counter_mode_transform(buffer, length, byte_offset, counter_seed, out_tag,
direction)`; it is deterministic and fully processes exactly `length` bytes in
place.  Direction `true` is encrypt (tag of the plaintext input), `false` is
decrypt (tag of the plaintext output).  Returns the transformed buffer and
the tag. -/
def SymmCipher.ctr_crypt (key : Nat) (data : List Nat) (len pos ctriv : Nat)
    (encrypt : Bool) : List Nat × Nat :=
  if encrypt then
    (SymmCipher.ctrStream key ctriv pos 0 (data.take len) ++ data.drop len,
     SymmCipher.chunkMac key ctriv pos (data.take len))
  else
    (SymmCipher.ctrStream key ctriv pos 0 (data.take len) ++ data.drop len,
     SymmCipher.chunkMac key ctriv pos
       (SymmCipher.ctrStream key ctriv pos 0 (data.take len)))

/-- Model of `(size + SymmCipher::BLOCKSIZE - 1) & - SymmCipher::BLOCKSIZE` from
`HttpReqDL::prepare`: round up to a multiple of the cipher block size. -/
def roundUpBlock (n : Nat) : Nat :=
  (n + SymmCipher.BLOCKSIZE - 1) - (n + SymmCipher.BLOCKSIZE - 1) % SymmCipher.BLOCKSIZE

/-- Model of `memcpy(b + pos, xs, xs.length)`: overwrite `b` at `[pos, pos+len)`.
(When `pos + xs.length ≤ b.length` — the only case the theorems allow — the
result has the same length as `b`.) -/
def listWrite (b : List Nat) (pos : Nat) (xs : List Nat) : List Nat :=
  b.take pos ++ xs ++ b.drop (pos + xs.length)

/-- Model of `std::string::resize(n)`: truncate to `n` bytes, or pad with `\0`. -/
def listResize (n : Nat) (l : List Nat) : List Nat :=
  l.take n ++ List.replicate (n - l.length) 0

/-- Model of `snprintf(urlbuf, sizeof urlbuf, ...)` with a 256-byte `urlbuf`: keeps at
most 255 characters of the formatted string. -/
def snprintf255 (s : String) : String :=
  (s.toList.take 255).asString

/-- Model of `REQ_JSON` / `REQ_BINARY`. -/
inductive Contenttype where
  | json
  | binary
deriving DecidableEq, Repr

/-- Calls `HttpReq` members issue to the transport collaborator (`httpio`). -/
inductive TransportCall where
  | cancel
  | post
deriving DecidableEq, Repr

/-- The `HttpReq` state (the fields of `http.h` that `http.cpp` manipulates).
`buf = some b` is the fixed-capacity mode (`byte* buf` non-null, with logical
capacity `buflen`); `buf = none` is the growable mode backed by the string
`inBuf`.  `httpio` records whether the request is associated with a live
transport handle. -/
structure HttpReq where
  binary : Bool
  posturl : String
  rtype : Contenttype
  buf : Option (List Nat)
  buflen : Nat
  bufpos : Nat
  inBuf : List Nat
  inpurge : Nat
  outBuf : List Nat
  contentlength : Int
  httpio : Bool
  chunked : Bool
deriving DecidableEq, Repr

/-- Model of `HttpReq::HttpReq(bool b)`. -/
def HttpReq.init (b : Bool) : HttpReq :=
  { binary := b, posturl := "", rtype := .json, buf := none, buflen := 0,
    bufpos := 0, inBuf := [], inpurge := 0, outBuf := [], contentlength := 0,
    httpio := false, chunked := false }

/-- Model of `HttpReq::setreq(const char* u, contenttype_t t)`. -/
def HttpReq.setreq (u : String) (t : Contenttype) (r : HttpReq) : HttpReq :=
  { r with posturl := u, rtype := t }

/-- Model of `HttpReq::put(void* data, unsigned len, bool purge)`: add data to the
fixed or variable buffer.  In the fixed mode the length is clamped to the
remaining capacity; in the growable mode, when `purge` is set and there is a
pending purge offset, the consumed prefix is physically erased first
(`std::string::erase(0, inpurge)`, which clamps) before appending.
`bufpos += len` runs in both modes (with the clamped length in the fixed
mode, the full length in the growable mode). -/
def HttpReq.put (data : List Nat) (purge : Bool) (r : HttpReq) : HttpReq :=
  match r.buf with
  | some b =>
      let len := if r.bufpos + data.length > r.buflen
                 then r.buflen - r.bufpos else data.length
      { r with buf := some (listWrite b r.bufpos (data.take len)),
               bufpos := r.bufpos + len }
  | none =>
      let r :=
        if r.inpurge ≠ 0 ∧ purge then
          { r with inBuf := r.inBuf.drop r.inpurge, inpurge := 0 }
        else r
      { r with inBuf := r.inBuf ++ data, bufpos := r.bufpos + data.length }

/-- The readable region exposed by `HttpReq::data()` (pointer
`in.data() + inpurge`) together with `HttpReq::size()`
(`in.size() - inpurge`): the unconsumed bytes of the growable buffer. -/
def HttpReq.viewData (r : HttpReq) : List Nat :=
  r.inBuf.drop r.inpurge

/-- Model of `HttpReq::purge(size_t numbytes)`: `inpurge += numbytes` (no other
effect; physical removal is deferred). -/
def HttpReq.purge (numbytes : Nat) (r : HttpReq) : HttpReq :=
  { r with inpurge := r.inpurge + numbytes }

/-- Model of `HttpReq::setcontentlength(m_off_t len)` (the `in.reserve(len)` call has
no observable effect on contents). -/
def HttpReq.setcontentlength (len : Int) (r : HttpReq) : HttpReq :=
  { r with contentlength := len }

/-- Model of `HttpReq::reserveput(unsigned* len)`: make space for receiving data,
adjusting `*len` when out of space (fixed mode) or after growing the string
(growable mode, where the purged prefix is compacted out first and `bufpos`
is pulled back by `inpurge`).  Returns the updated request and the adjusted
`*len`; the returned write window is `[bufpos, bufpos + len)` of the store. -/
def HttpReq.reserveput (len : Nat) (r : HttpReq) : HttpReq × Nat :=
  match r.buf with
  | some _ =>
      if r.bufpos + len > r.buflen then (r, r.buflen - r.bufpos) else (r, len)
  | none =>
      let r :=
        if r.inpurge ≠ 0 then
          { r with inBuf := r.inBuf.drop r.inpurge,
                   bufpos := r.bufpos - r.inpurge, inpurge := 0 }
        else r
      let r :=
        if r.bufpos + len > r.inBuf.length then
          { r with inBuf := r.inBuf ++ List.replicate (r.bufpos + len - r.inBuf.length) 0 }
        else r
      (r, r.inBuf.length - r.bufpos)

/-- Model of `HttpReq::transferred(MegaClient*)`: `bufpos` in the fixed mode, the
string size in the growable mode. -/
def HttpReq.transferred (r : HttpReq) : Nat :=
  if r.buf.isSome then r.bufpos else r.inBuf.length

/-- Model of `HttpReq::post(MegaClient*, ...)`: if the request is still associated
with a live transport handle, first cancel it on the transport collaborator;
then reset `bufpos`, `inpurge` and `contentlength` and submit.  Returns the
new state and the ordered list of transport-collaborator calls made. -/
def HttpReq.post (r : HttpReq) : HttpReq × List TransportCall :=
  ((if r.httpio then
      { r with httpio := true, bufpos := 0, inpurge := 0, contentlength := -1 }
    else
      { r with httpio := true, bufpos := 0, inpurge := 0, contentlength := -1 }),
   (if r.httpio then [TransportCall.cancel] else []) ++ [TransportCall.post])

/-- Model of `HttpReq::disconnect()`. -/
def HttpReq.disconnect (r : HttpReq) : HttpReq × List TransportCall :=
  ((if r.httpio then { r with httpio := false, chunked := false }
    else { r with chunked := false }),
   if r.httpio then [TransportCall.cancel] else [])

/-- Model of `HttpReqDL`, the download sub-request: adds `dlpos` (chunk start offset)
and `size` (chunk byte count). -/
structure HttpReqDL extends HttpReq where
  dlpos : Nat
  size : Nat
deriving DecidableEq, Repr

/-- Model of `HttpReqDL::prepare(tempurl, key, macs, ctriv, pos, npos)`: format the
sub-request URL `"<tempurl>/<pos>-<npos-1>"` into a 256-byte buffer
(`snprintf` keeps at most 255 characters), record the range, and (re)allocate
the fixed buffer of `npos - pos` bytes rounded up to the cipher block size
only when there is no buffer yet or its logical capacity differs.  Fresh
allocations are uninitialised in C++; the model fills them with zeros. -/
def HttpReqDL.prepare (tempurl : String) (pos npos : Nat) (r : HttpReqDL) :
    HttpReqDL :=
  let sz := npos - pos
  let r := { r with
    posturl := snprintf255 (tempurl ++ "/" ++ toString pos ++ "-" ++ toString (npos - 1)),
    rtype := .binary, dlpos := pos, size := sz }
  if r.buf.isNone ∨ r.buflen ≠ sz then
    { r with buf := some (List.replicate (roundUpBlock sz) 0), buflen := sz }
  else r

/-- Model of `HttpReqDL::finalize(key, macs, ctriv)`: decrypt `bufpos` bytes of the
fixed buffer in place at stream offset `dlpos` with seed `ctriv`, and store
the resulting tag in the MAC ledger at key `dlpos`.  `none` models the
null-pointer dereference when no buffer was allocated. -/
def HttpReqDL.finalize (key : Nat) (macs : Nat → Option Nat) (ctriv : Nat)
    (r : HttpReqDL) : Option (HttpReqDL × (Nat → Option Nat)) :=
  match r.buf with
  | none => none
  | some b =>
      let res := SymmCipher.ctr_crypt key b r.bufpos r.dlpos ctriv false
      some ({ r with buf := some res.1 },
            fun k => if k = r.dlpos then some res.2 else macs k)

/-- The inherited `HttpReq::put` member invoked on a download sub-request
(this is how the transport collaborator fills the chunk buffer). -/
def HttpReqDL.put (data : List Nat) (purge : Bool) (r : HttpReqDL) : HttpReqDL :=
  { r with toHttpReq := r.toHttpReq.put data purge }

/-- Model of `HttpReqUL`, the upload sub-request: adds `size` (chunk byte count). -/
structure HttpReqUL extends HttpReq where
  size : Nat
deriving DecidableEq, Repr

/-- Model of `HttpReqUL::prepare(tempurl, key, macs, ctriv, pos, npos)`: format the
sub-request URL `"<tempurl>/<pos>"` (256-byte `snprintf` buffer), encrypt the
first `npos - pos` bytes of the staged out-buffer in place at stream offset
`pos` with seed `ctriv`, store the tag in the MAC ledger at key `pos`, and
resize the out-buffer to exactly `npos - pos` bytes (unpad for POSTing). -/
def HttpReqUL.prepare (tempurl : String) (key : Nat)
    (macs : Nat → Option Nat) (ctriv pos npos : Nat) (r : HttpReqUL) :
    HttpReqUL × (Nat → Option Nat) :=
  let sz := npos - pos
  let res := SymmCipher.ctr_crypt key r.outBuf sz pos ctriv true
  ({ r with size := sz,
            posturl := snprintf255 (tempurl ++ "/" ++ toString pos),
            rtype := .binary,
            outBuf := listResize sz res.1 },
   fun k => if k = pos then some res.2 else macs k)

/-- The outage-detection fields of `HttpIO` (`noinetds`, `inetback`); the
timestamp `0` is `NEVER` (`Waiter::ds` deciseconds). -/
structure InetState where
  noinetds : Nat
  inetback : Bool
deriving DecidableEq, Repr

/-- Model of `HttpIO::HttpIO()`: `noinetds = 0`, `inetback = false`. -/
def InetState.init : InetState := { noinetds := 0, inetback := false }

/-- Model of `HttpIO::inetstatus(bool up)` with `Waiter::ds = ds`: on an up report,
set `inetback` when a recorded outage lasted more than 600 deciseconds and
clear `noinetds`; on a down report, record the current time only if no
outage is already in progress. -/
def inetstatus (up : Bool) (ds : Nat) (s : InetState) : InetState :=
  if up then
    { s with
      inetback := if s.noinetds ≠ 0 ∧ ds - s.noinetds > 600 then true else s.inetback,
      noinetds := 0 }
  else if s.noinetds = 0 then { s with noinetds := ds } else s

/-- Model of `HttpIO::inetisback()`: read-once recovery edge. -/
def inetisback (s : InetState) : Bool × InetState :=
  (s.inetback, { s with inetback := false })

/-- Concrete fixed-capacity request used by witnesses: a 16-byte allocation
with logical capacity 10 and write cursor 0. -/
def fixedEx : HttpReq :=
  { HttpReq.init true with buf := some (List.replicate 16 0), buflen := 10 }

/-- Concrete fresh download sub-request used by witnesses. -/
def dlEx : HttpReqDL :=
  { toHttpReq := HttpReq.init true, dlpos := 0, size := 0 }

/-- Concrete fresh upload sub-request used by witnesses. -/
def ulEx : HttpReqUL :=
  { toHttpReq := HttpReq.init true, size := 0 }

/-- A fully received fixed-capacity request: 16 bytes of value 3 at capacity
16, write cursor 16 (witness fixture). -/
def fixedFullReq : HttpReq :=
  { HttpReq.init true with buf := some (List.replicate 16 3), buflen := 16, bufpos := 16 }

/-- A download sub-request that has received its whole 16-byte chunk
(witness fixture). -/
def dlFullEx : HttpReqDL :=
  { toHttpReq := fixedFullReq, dlpos := 0, size := 16 }

/-- An upload sub-request with four staged plaintext bytes (witness
fixture). -/
def ulStagedEx : HttpReqUL :=
  { toHttpReq := { HttpReq.init true with outBuf := [1, 2, 3, 4] }, size := 0 }

/-- An operation of the growable-buffer protocol of claim C4: an `append`
(`HttpReq::put` with its `purge` flag) or a `mark_purged` (`HttpReq::purge`). -/
inductive BufOp where
  | app (d : List Nat) (pflag : Bool)
  | mark (k : Nat)
deriving DecidableEq, Repr

/-- Run a sequence of buffer operations. -/
def runOps (ops : List BufOp) (r : HttpReq) : HttpReq :=
  ops.foldl (fun s o => match o with
    | .app d p => s.put d p
    | .mark k => s.purge k) r

/-- Concatenation of all bytes appended by a sequence of operations. -/
def appendedOf : List BufOp → List Nat
  | [] => []
  | .app d _ :: rest => d ++ appendedOf rest
  | .mark _ :: rest => appendedOf rest

/-- Total of all purge sizes in a sequence of operations. -/
def purgedOf : List BufOp → Nat
  | [] => 0
  | .app _ _ :: rest => purgedOf rest
  | .mark k :: rest => k + purgedOf rest

/-- A sequence of operations is valid from state `r` when every
`mark_purged k` purges at most the unconsumed data available at that point. -/
def validOps (r : HttpReq) : List BufOp → Bool
  | [] => true
  | .app d p :: rest => validOps (r.put d p) rest
  | .mark k :: rest => decide (k ≤ r.viewData.length) && validOps (r.purge k) rest

/-- The counter-mode transform preserves the byte count. -/
theorem ctrStream_length (key ctriv pos i : Nat) (l : List Nat) :
    (SymmCipher.ctrStream key ctriv pos i l).length = l.length := by
  induction l generalizing i with
  | nil => rfl
  | cons b bs ih => simp [SymmCipher.ctrStream, ih]

/-- The counter-mode transform is an involution (XOR against the same
keystream twice restores the input). -/
theorem ctrStream_ctrStream (key ctriv pos i : Nat) (l : List Nat) :
    SymmCipher.ctrStream key ctriv pos i (SymmCipher.ctrStream key ctriv pos i l) = l := by
  induction l generalizing i with
  | nil => rfl
  | cons b bs ih => simp [SymmCipher.ctrStream, Nat.xor_cancel_right, ih]

/-- C1 (counterexample): `mark_purged` (`HttpReq::purge`) does not clamp the
purge offset to the write cursor: purging 1 byte of a fresh growable request
that holds no data leaves `inpurge = 1 > bufpos = 0` (and the store is
empty), violating `purge_offset ≤ write_cursor ≤ store.length`. -/
theorem C1_counterexample :
    ((HttpReq.init true).purge 1).inpurge = 1 ∧
    ((HttpReq.init true).purge 1).bufpos = 0 ∧
    ((HttpReq.init true).purge 1).inBuf.length = 0 :=
  ⟨rfl, rfl, rfl⟩

/-- C1 (amended): `append` (`HttpReq::put`) and `reserve_for_write`
(`HttpReq::reserveput`) preserve `purge_offset ≤ store.length` on a growable
buffer, but `mark_purged` (`HttpReq::purge`) advances the purge offset by
exactly `n` with no clamping, so over-purging can violate the invariant. -/
theorem C1_amended :
    (∀ (r : HttpReq) (n : Nat), (r.purge n).inpurge = r.inpurge + n) ∧
    (∀ (r : HttpReq) (d : List Nat) (p : Bool), r.buf = none →
       r.inpurge ≤ r.inBuf.length →
       (r.put d p).inpurge ≤ (r.put d p).inBuf.length) ∧
    (∀ (r : HttpReq) (n : Nat), r.buf = none →
       ((r.reserveput n).1).inpurge ≤ ((r.reserveput n).1).inBuf.length) := by
  refine ⟨fun r n => rfl, fun r d p hb hle => ?_, fun r n hb => ?_⟩
  · simp only [HttpReq.put, hb]
    split
    · simp
    · simp only [List.length_append]
      omega
  · simp only [HttpReq.reserveput, hb]
    split
    · split <;> simp
    · next h1 =>
        have h0 : r.inpurge = 0 := by omega
        split <;> simp [h0]

/-- C1 (witness for the amended theorem at concrete inputs). -/
theorem C1_amended_witness :
    ((HttpReq.init true).purge 5).inpurge = (HttpReq.init true).inpurge + 5 ∧
    (((HttpReq.init true).put [1, 2] false).inpurge ≤
      ((HttpReq.init true).put [1, 2] false).inBuf.length) ∧
    ((((HttpReq.init true).reserveput 4).1).inpurge ≤
      (((HttpReq.init true).reserveput 4).1).inBuf.length) :=
  ⟨C1_amended.1 (HttpReq.init true) 5,
   C1_amended.2.1 (HttpReq.init true) [1, 2] false rfl (by decide),
   C1_amended.2.2 (HttpReq.init true) 4 rfl⟩

/-- C3: invoking `HttpReq::post` on a request still associated with a live
transport handle first cancels it on the transport collaborator and then
submits, and the resulting state has `bufpos = 0` and `inpurge = 0` (the
buffer is reset for reuse). -/
theorem C3_post_cancels_and_resets (r : HttpReq) (h : r.httpio = true) :
    (r.post).2 = [TransportCall.cancel, TransportCall.post] ∧
    (r.post).1.bufpos = 0 ∧ (r.post).1.inpurge = 0 := by
  simp [HttpReq.post, h]

/-- C3 (witness at a concrete request with a live handle). -/
theorem C3_witness :
    (({ HttpReq.init true with httpio := true } : HttpReq).post).2 =
      [TransportCall.cancel, TransportCall.post] ∧
    (({ HttpReq.init true with httpio := true } : HttpReq).post).1.bufpos = 0 ∧
    (({ HttpReq.init true with httpio := true } : HttpReq).post).1.inpurge = 0 :=
  C3_post_cancels_and_resets _ rfl

/-- C9 (counterexample): reporting down at timestamp 0 and up at 601
deciseconds later does not set the recovery flag, although the elapsed time
exceeds 600 deciseconds — the code uses timestamp 0 as the `NEVER` sentinel,
so the down report at `t = 0` records no outage. -/
theorem C9_counterexample :
    (inetstatus true 601 (inetstatus false 0 InetState.init)).inetback = false ∧
    601 - 0 > 600 := by decide

/-- C9 (amended): for every timestamp pair `0 < t_down < t_up` (timestamp 0
is the `NEVER` sentinel), down at `t_down` then up at `t_up` from a fresh
detector sets the recovery flag iff `t_up - t_down` exceeds 600 deciseconds;
any up report resets `noinetds` to never; a down report records `noinetds`
only when no outage is already in progress. -/
theorem C9_amended :
    (∀ td tu : Nat, 0 < td → td < tu →
       (inetstatus true tu (inetstatus false td InetState.init)).inetback =
         decide (tu - td > 600)) ∧
    (∀ (s : InetState) (t : Nat), (inetstatus true t s).noinetds = 0) ∧
    (∀ (s : InetState) (t : Nat), s.noinetds = 0 →
       (inetstatus false t s).noinetds = t) ∧
    (∀ (s : InetState) (t : Nat), s.noinetds ≠ 0 → inetstatus false t s = s) := by
  refine ⟨fun td tu h1 h2 => ?_, fun s t => ?_, fun s t h => ?_, fun s t h => ?_⟩
  · have h3 : inetstatus false td InetState.init =
        { noinetds := td, inetback := false } := by
      simp [inetstatus, InetState.init]
    rw [h3]
    simp [inetstatus, h1.ne']
  · simp [inetstatus]
  · simp [inetstatus, h]
  · simp [inetstatus, h]

/-- C9 (witness): down at 1 ds, up at 602 ds — 601 ds elapsed, flag set. -/
theorem C9_amended_witness :
    (0 < 1 ∧ 1 < 602) ∧
    (inetstatus true 602 (inetstatus false 1 InetState.init)).inetback =
      decide (602 - 1 > 600) :=
  ⟨⟨by decide, by decide⟩, C9_amended.1 1 602 (by decide) (by decide)⟩

/-- A formatted string short enough for the 256-byte `snprintf` buffer is
kept whole. -/
theorem snprintf255_of_le (s : String) (h : s.length ≤ 255) :
    snprintf255 s = s := by
  cases s with
  | mk data =>
      simp only [snprintf255, String.toList, String.length] at *
      rw [List.take_of_length_le h]
      rfl

/-- A `memcpy` inside the allocation preserves the store length. -/
theorem listWrite_length (b xs : List Nat) (pos : Nat)
    (h : pos + xs.length ≤ b.length) :
    (listWrite b pos xs).length = b.length := by
  simp only [listWrite, List.length_append, List.length_take, List.length_drop]
  omega

/-- C5: appending `d` to a fixed-capacity request copies exactly
`min(d.length, buflen - bufpos)` bytes at the write cursor, advances the
cursor by that amount, and never changes the length of the allocated
storage (the buffer never grows). -/
theorem C5_fixed_put_clamps (r : HttpReq) (b d : List Nat) (p : Bool)
    (hb : r.buf = some b) (h1 : r.bufpos ≤ r.buflen) (h2 : r.buflen ≤ b.length) :
    (r.put d p).bufpos = r.bufpos + min d.length (r.buflen - r.bufpos) ∧
    (r.put d p).buf =
      some (listWrite b r.bufpos (d.take (min d.length (r.buflen - r.bufpos)))) ∧
    ((r.put d p).buf.getD []).length = b.length := by
  have hlen : (if r.bufpos + d.length > r.buflen
               then r.buflen - r.bufpos else d.length)
      = min d.length (r.buflen - r.bufpos) := by
    split <;> omega
  have htk : (d.take (min d.length (r.buflen - r.bufpos))).length
      = min d.length (r.buflen - r.bufpos) := by
    simp only [List.length_take]
    omega
  refine ⟨?_, ?_, ?_⟩
  · simp only [HttpReq.put, hb, hlen]
  · simp only [HttpReq.put, hb, hlen]
  · simp only [HttpReq.put, hb, hlen, Option.getD_some]
    rw [listWrite_length]
    rw [htk]
    omega

/-- C5 (witness): a 16-byte allocation with logical capacity 10; appending
three bytes at cursor 0 advances the cursor by `min 3 10 = 3`. -/
theorem C5_witness :
    (fixedEx.put [1, 2, 3] false).bufpos = 3 := by
  have h := (C5_fixed_put_clamps fixedEx
    (List.replicate 16 0) [1, 2, 3] false rfl (by decide) (by decide)).1
  simpa [fixedEx, HttpReq.init] using h

/-- C10: `reserveput` on a growable request (purge offset within the write
cursor) always grants at least the requested window, and on a fixed-capacity
request grants exactly `min(requested, buflen - bufpos)` — so a short grant
happens only in the fixed mode, where it equals the remaining capacity. -/
theorem C10_reserveput_window (r1 r2 : HttpReq) (b : List Nat) (n : Nat)
    (h1 : r1.buf = none) (h2 : r1.inpurge ≤ r1.bufpos)
    (h3 : r2.buf = some b) (h4 : r2.bufpos ≤ r2.buflen) :
    n ≤ (r1.reserveput n).2 ∧
    (r2.reserveput n).2 = min n (r2.buflen - r2.bufpos) := by
  constructor
  · simp only [HttpReq.reserveput, h1]
    split <;> split
    all_goals try simp_all
    all_goals omega
  · simp only [HttpReq.reserveput, h3]
    split <;> omega

/-- C10 (witness): a fresh growable request grants the 7 bytes requested; a
fixed request with capacity 10 and cursor 0 grants `min 7 10 = 7`. -/
theorem C10_witness :
    7 ≤ ((HttpReq.init true).reserveput 7).2 ∧
    (fixedEx.reserveput 7).2 = 7 := by
  have h := C10_reserveput_window (HttpReq.init true) fixedEx
    (List.replicate 16 0) 7 rfl (by decide) rfl (by decide)
  exact ⟨h.1, h.2.trans (by decide)⟩

/-- C8: `HttpReqDL::prepare` sets the sub-request URL to
`tempurl ++ "/" ++ pos ++ "-" ++ (npos - 1)` (when it fits the 256-byte
format buffer), sets the logical capacity to `npos - pos`, and reallocates a
zero-fresh store of `roundUpBlock (npos - pos)` bytes if and only if there is
no buffer or the logical capacity differs; otherwise the store is kept. -/
theorem C8_dl_prepare (r : HttpReqDL) (tempurl : String) (pos npos : Nat)
    (hurl : (tempurl ++ "/" ++ toString pos ++ "-" ++ toString (npos - 1)).length ≤ 255) :
    (r.prepare tempurl pos npos).posturl =
      tempurl ++ "/" ++ toString pos ++ "-" ++ toString (npos - 1) ∧
    (r.prepare tempurl pos npos).buflen = npos - pos ∧
    (r.prepare tempurl pos npos).buf =
      (if r.buf.isSome ∧ r.buflen = npos - pos then r.buf
       else some (List.replicate (roundUpBlock (npos - pos)) 0)) := by
  by_cases hc : r.buf.isSome ∧ r.buflen = npos - pos
  · obtain ⟨v, hv⟩ := Option.isSome_iff_exists.mp hc.1
    simp only [HttpReqDL.prepare]
    rw [if_neg (by simp [hv, hc.2]), if_pos hc]
    exact ⟨snprintf255_of_le _ hurl, hc.2, rfl⟩
  · simp only [HttpReqDL.prepare]
    rw [if_pos ?hcond, if_neg hc]
    case hcond =>
      cases hv : r.buf with
      | none => exact Or.inl (by simp [hv])
      | some v => exact Or.inr (fun he => hc ⟨by simp [hv], he⟩)
    exact ⟨snprintf255_of_le _ hurl, rfl, rfl⟩

/-- C8 (witness): preparing a fresh download request for range `[0, 16)`
builds the URL `"https://x/f/0-15"` and a 16-byte capacity. -/
theorem C8_witness :
    (dlEx.prepare "https://x/f" 0 16).posturl = "https://x/f/0-15" ∧
    (dlEx.prepare "https://x/f" 0 16).buflen = 16 := by
  have h := C8_dl_prepare dlEx "https://x/f" 0 16 (by decide)
  exact ⟨by rw [h.1]; rfl, h.2.1⟩

/-- Unfolding of `HttpReqDL::finalize` when a buffer is allocated: the store
becomes the decryption of `bufpos` bytes at offset `dlpos`, the ledger gains
the resulting tag at key `dlpos`, and every other ledger key is unchanged. -/
theorem dl_finalize_spec (r : HttpReqDL) (b : List Nat) (key ctriv : Nat)
    (macs : Nat → Option Nat) (hb : r.buf = some b) :
    (r.finalize key macs ctriv).map (fun p => p.1.buf) =
      some (some ((SymmCipher.ctr_crypt key b r.bufpos r.dlpos ctriv false).1)) ∧
    (r.finalize key macs ctriv).map (fun p => p.2 r.dlpos) =
      some (some ((SymmCipher.ctr_crypt key b r.bufpos r.dlpos ctriv false).2)) ∧
    ∀ k, k ≠ r.dlpos →
      (r.finalize key macs ctriv).map (fun p => p.2 k) = some (macs k) := by
  refine ⟨?_, ?_, fun k hk => ?_⟩
  · simp [HttpReqDL.finalize, hb]
  · simp [HttpReqDL.finalize, hb]
  · simp [HttpReqDL.finalize, hb, hk]

/-- The length of what the counter-mode transform makes of the first `n`
bytes, when `n` bytes are available. -/
theorem ctrStream_take_length (key ctriv pos n : Nat) (l : List Nat)
    (h : n ≤ l.length) :
    (SymmCipher.ctrStream key ctriv pos 0 (l.take n)).length = n := by
  rw [ctrStream_length, List.length_take]
  omega

/-- Resizing via `std::string::resize` after an in-place encryption of the first `n`
bytes drops exactly the unencrypted tail. -/
theorem listResize_stream (n : Nat) (l : List Nat) (key ctriv pos : Nat)
    (h : n ≤ l.length) :
    listResize n (SymmCipher.ctrStream key ctriv pos 0 (l.take n) ++ l.drop n) =
      SymmCipher.ctrStream key ctriv pos 0 (l.take n) := by
  have hs := ctrStream_take_length key ctriv pos n l h
  simp only [listResize, List.length_append, List.length_drop, hs]
  rw [List.take_append_of_le_length (by omega), List.take_of_length_le (by omega)]
  have hz : n - (n + (l.length - n)) = 0 := by omega
  simp [hz]

/-- Unfolding of `HttpReqUL::prepare`: the out-buffer becomes the encryption
of its first `npos - pos` bytes (exactly that many bytes long), the ledger
gains the plaintext tag at key `pos`, and every other ledger key is
unchanged. -/
theorem ul_prepare_spec (r : HttpReqUL) (tempurl : String) (key : Nat)
    (macs : Nat → Option Nat) (ctriv pos npos : Nat)
    (hlen : npos - pos ≤ r.outBuf.length) :
    ((r.prepare tempurl key macs ctriv pos npos).1).outBuf =
      SymmCipher.ctrStream key ctriv pos 0 (r.outBuf.take (npos - pos)) ∧
    ((r.prepare tempurl key macs ctriv pos npos).1).posturl =
      snprintf255 (tempurl ++ "/" ++ toString pos) ∧
    (∀ k, ((r.prepare tempurl key macs ctriv pos npos).2) k =
      (if k = pos then
        some (SymmCipher.chunkMac key ctriv pos (r.outBuf.take (npos - pos)))
       else macs k)) := by
  refine ⟨?_, rfl, fun k => rfl⟩
  simp only [HttpReqUL.prepare, SymmCipher.ctr_crypt, if_pos rfl]
  exact listResize_stream (npos - pos) r.outBuf key ctriv pos hlen

/-- C6: `HttpReqDL::finalize(counter_seed)` runs the encryption contract in
decrypt direction over exactly `transferred()` bytes of the buffer at byte
offset `dlpos` with seed `ctriv`, and writes the resulting tag into the MAC
ledger at key `dlpos` and at no other key. -/
theorem C6_dl_finalize (r : HttpReqDL) (b : List Nat) (key ctriv : Nat)
    (macs : Nat → Option Nat) (hb : r.buf = some b) :
    (r.finalize key macs ctriv).map (fun p => p.1.buf) =
      some (some ((SymmCipher.ctr_crypt key b r.toHttpReq.transferred r.dlpos ctriv false).1)) ∧
    (r.finalize key macs ctriv).map (fun p => p.2 r.dlpos) =
      some (some ((SymmCipher.ctr_crypt key b r.toHttpReq.transferred r.dlpos ctriv false).2)) ∧
    ∀ k, k ≠ r.dlpos →
      (r.finalize key macs ctriv).map (fun p => p.2 k) = some (macs k) := by
  have ht : r.toHttpReq.transferred = r.bufpos := by
    simp [HttpReq.transferred, hb]
  rw [ht]
  exact dl_finalize_spec r b key ctriv macs hb

/-- C6 (witness): finalizing a fully received 16-byte chunk records the
decrypt-direction tag at ledger key 0. -/
theorem C6_witness :
    ((dlFullEx.finalize 5 (fun _ => none) 7).map (fun p => p.2 0)) =
      some (some ((SymmCipher.ctr_crypt 5 (List.replicate 16 3)
        dlFullEx.toHttpReq.transferred 0 7 false).2)) :=
  (C6_dl_finalize dlFullEx (List.replicate 16 3) 5 7 (fun _ => none) rfl).2.1

/-- C7: `HttpReqUL::prepare` sets the sub-request URL to
`tempurl ++ "/" ++ pos` (when it fits the 256-byte format buffer), encrypts
the first `npos - pos` staged bytes in place at byte offset `pos` with seed
`ctriv`, truncates the out-buffer to exactly `npos - pos` bytes, and records
the resulting tag in the MAC ledger at key `pos` and at no other key. -/
theorem C7_ul_prepare (r : HttpReqUL) (tempurl : String) (key : Nat)
    (macs : Nat → Option Nat) (ctriv pos npos : Nat)
    (hurl : (tempurl ++ "/" ++ toString pos).length ≤ 255)
    (hlen : npos - pos ≤ r.outBuf.length) :
    ((r.prepare tempurl key macs ctriv pos npos).1).posturl =
      tempurl ++ "/" ++ toString pos ∧
    ((r.prepare tempurl key macs ctriv pos npos).1).outBuf =
      SymmCipher.ctrStream key ctriv pos 0 (r.outBuf.take (npos - pos)) ∧
    ((r.prepare tempurl key macs ctriv pos npos).1).outBuf.length = npos - pos ∧
    ((r.prepare tempurl key macs ctriv pos npos).2) pos =
      some (SymmCipher.chunkMac key ctriv pos (r.outBuf.take (npos - pos))) ∧
    ∀ k, k ≠ pos → ((r.prepare tempurl key macs ctriv pos npos).2) k = macs k := by
  obtain ⟨h1, h2, h3⟩ := ul_prepare_spec r tempurl key macs ctriv pos npos hlen
  refine ⟨h2.trans (snprintf255_of_le _ hurl), h1, ?_, ?_, fun k hk => ?_⟩
  · rw [h1]
    exact ctrStream_take_length key ctriv pos (npos - pos) r.outBuf hlen
  · rw [h3 pos, if_pos rfl]
  · rw [h3 k, if_neg hk]

/-- C7 (witness): preparing the upload of bytes `[1, 2, 3, 4]` as range
`[0, 4)` gives the URL `"https://u/0"`, a 4-byte encrypted out-buffer and
the plaintext tag at ledger key 0. -/
theorem C7_witness :
    ((ulStagedEx.prepare "https://u" 5 (fun _ => none) 7 0 4).1).posturl =
      "https://u/0" ∧
    ((ulStagedEx.prepare "https://u" 5 (fun _ => none) 7 0 4).1).outBuf.length = 4 ∧
    ((ulStagedEx.prepare "https://u" 5 (fun _ => none) 7 0 4).2) 0 =
      some (SymmCipher.chunkMac 5 7 0 ([1, 2, 3, 4] : List Nat)) := by
  have h := C7_ul_prepare ulStagedEx "https://u" 5 (fun _ => none) 7 0 4
    (by decide) (by decide)
  exact ⟨h.1, h.2.2.1, by rw [h.2.2.2.1]; rfl⟩

/-- The block-size round-up never shrinks. -/
theorem roundUpBlock_ge (n : Nat) : n ≤ roundUpBlock n := by
  have h := Nat.mod_lt (n + SymmCipher.BLOCKSIZE - 1)
    (show 0 < SymmCipher.BLOCKSIZE by decide)
  simp only [roundUpBlock, SymmCipher.BLOCKSIZE] at *
  omega

/-- Unfolding of `HttpReqDL::prepare` on a request without a buffer: a fresh
store of `roundUpBlock (npos - pos)` bytes is allocated, the logical capacity
becomes `npos - pos`, and the write cursor and range start are as expected. -/
theorem dl_prepare_fresh (rdl : HttpReqDL) (turl : String) (pos npos : Nat)
    (hdb : rdl.buf = none) :
    (rdl.prepare turl pos npos).buf =
      some (List.replicate (roundUpBlock (npos - pos)) 0) ∧
    (rdl.prepare turl pos npos).buflen = npos - pos ∧
    (rdl.prepare turl pos npos).bufpos = rdl.bufpos ∧
    (rdl.prepare turl pos npos).dlpos = pos := by
  simp only [HttpReqDL.prepare]
  rw [if_pos (Or.inl (by simp [hdb]))]
  exact ⟨rfl, rfl, rfl, rfl⟩

/-- Filling a fixed-capacity request whose capacity equals the data length
from cursor 0: the data lands at the front of the store and the cursor
advances to the full length (no clamping). -/
theorem put_fixed_full (r : HttpReq) (b d : List Nat)
    (hb : r.buf = some b) (hp : r.bufpos = 0) (hcap : r.buflen = d.length) :
    (r.put d true).buf = some (d ++ b.drop d.length) ∧
    (r.put d true).bufpos = d.length := by
  simp only [HttpReq.put, hb, hp, hcap]
  rw [if_neg (by omega)]
  exact ⟨by simp [listWrite], by simp⟩

/-- Decrypting what the encrypt direction produced (plus any tail bytes the
decryption length excludes) restores the plaintext, and the decrypt-direction
tag is the tag of that plaintext. -/
theorem ctr_crypt_decrypt_encrypt (key ctriv pos n : Nat) (pt z : List Nat)
    (hpt : pt.length = n) :
    SymmCipher.ctr_crypt key
        (SymmCipher.ctrStream key ctriv pos 0 pt ++ z) n pos ctriv false =
      (pt ++ z, SymmCipher.chunkMac key ctriv pos pt) := by
  have hct : (SymmCipher.ctrStream key ctriv pos 0 pt).length = n := by
    rw [ctrStream_length, hpt]
  simp only [SymmCipher.ctr_crypt, Bool.false_eq_true, if_false]
  rw [List.take_left' hct, List.drop_left' hct, ctrStream_ctrStream]

/-- C2: encrypting a staged chunk with `HttpReqUL::prepare` for the range
`[pos, npos)`, then preparing a fresh download request for the identical
range, receiving exactly the transmitted ciphertext, and finalizing with the
same counter seed reproduces the original plaintext (followed only by the
zero block-alignment padding of the fresh allocation), and both operations
record the identical tag — the tag of the plaintext — at ledger key `pos`. -/
theorem C2_upload_download_roundtrip (key ctriv pos npos : Nat)
    (turl1 turl2 : String) (macs1 macs2 : Nat → Option Nat)
    (rul : HttpReqUL) (rdl : HttpReqDL)
    (hlen : npos - pos ≤ rul.outBuf.length)
    (hdb : rdl.buf = none) (hdp : rdl.bufpos = 0) :
    ((((rdl.prepare turl2 pos npos).put
        ((rul.prepare turl1 key macs1 ctriv pos npos).1.outBuf) true).finalize
        key macs2 ctriv).map (fun p => p.1.buf)) =
      some (some (rul.outBuf.take (npos - pos) ++
        List.replicate (roundUpBlock (npos - pos) - (npos - pos)) 0)) ∧
    ((((rdl.prepare turl2 pos npos).put
        ((rul.prepare turl1 key macs1 ctriv pos npos).1.outBuf) true).finalize
        key macs2 ctriv).map (fun p => p.2 pos)) =
      some ((rul.prepare turl1 key macs1 ctriv pos npos).2 pos) ∧
    (rul.prepare turl1 key macs1 ctriv pos npos).2 pos =
      some (SymmCipher.chunkMac key ctriv pos (rul.outBuf.take (npos - pos))) := by
  obtain ⟨hU1, _, hU3⟩ := ul_prepare_spec rul turl1 key macs1 ctriv pos npos hlen
  obtain ⟨hDbuf, hDlen, hDpos, hDdl⟩ :=
    dl_prepare_fresh rdl turl2 pos npos hdb
  have hpt : (rul.outBuf.take (npos - pos)).length = npos - pos := by
    simp only [List.length_take]
    omega
  have hct : ((rul.prepare turl1 key macs1 ctriv pos npos).1.outBuf).length
      = npos - pos := by
    rw [hU1, ctrStream_length, hpt]
  obtain ⟨hPbuf, hPpos⟩ := put_fixed_full (rdl.prepare turl2 pos npos).toHttpReq
    (List.replicate (roundUpBlock (npos - pos)) 0)
    ((rul.prepare turl1 key macs1 ctriv pos npos).1.outBuf)
    hDbuf (hDpos.trans hdp) (hDlen.trans hct.symm)
  obtain ⟨hF1, hF2, _⟩ := dl_finalize_spec
    ((rdl.prepare turl2 pos npos).put
      ((rul.prepare turl1 key macs1 ctriv pos npos).1.outBuf) true)
    ((rul.prepare turl1 key macs1 ctriv pos npos).1.outBuf ++
      (List.replicate (roundUpBlock (npos - pos)) 0).drop
        ((rul.prepare turl1 key macs1 ctriv pos npos).1.outBuf).length)
    key ctriv macs2 hPbuf
  have hdrop : (List.replicate (roundUpBlock (npos - pos)) 0).drop
      ((rul.prepare turl1 key macs1 ctriv pos npos).1.outBuf).length =
      List.replicate (roundUpBlock (npos - pos) - (npos - pos)) (0 : Nat) := by
    rw [hct]
    simp
  have hppos : ((rdl.prepare turl2 pos npos).put
      ((rul.prepare turl1 key macs1 ctriv pos npos).1.outBuf) true).bufpos =
      npos - pos := hPpos.trans hct
  have hpdl : ((rdl.prepare turl2 pos npos).put
      ((rul.prepare turl1 key macs1 ctriv pos npos).1.outBuf) true).dlpos = pos :=
    hDdl
  rw [hdrop, hppos, hpdl] at hF1 hF2
  have hcrypt := ctr_crypt_decrypt_encrypt key ctriv pos (npos - pos)
    (rul.outBuf.take (npos - pos))
    (List.replicate (roundUpBlock (npos - pos) - (npos - pos)) 0) hpt
  have hkey : SymmCipher.ctr_crypt key
      ((rul.prepare turl1 key macs1 ctriv pos npos).1.outBuf ++
        List.replicate (roundUpBlock (npos - pos) - (npos - pos)) 0)
      (npos - pos) pos ctriv false =
      (rul.outBuf.take (npos - pos) ++
        List.replicate (roundUpBlock (npos - pos) - (npos - pos)) 0,
       SymmCipher.chunkMac key ctriv pos (rul.outBuf.take (npos - pos))) := by
    rw [hU1]
    exact hcrypt
  rw [hkey] at hF1 hF2
  refine ⟨hF1, ?_, (hU3 pos).trans (if_pos rfl)⟩
  rw [hF2, (hU3 pos).trans (if_pos rfl)]

/-- C2 (witness): the round trip at a concrete 4-byte chunk. -/
theorem C2_witness :
    ((((dlEx.prepare "b" 0 4).put
        ((ulStagedEx.prepare "a" 5 (fun _ => none) 7 0 4).1.outBuf) true).finalize
        5 (fun _ => none) 7).map (fun p => p.2 0)) =
      some ((ulStagedEx.prepare "a" 5 (fun _ => none) 7 0 4).2 0) :=
  (C2_upload_download_roundtrip 5 7 0 4 "a" "b" (fun _ => none) (fun _ => none)
    ulStagedEx dlEx (by decide) rfl rfl).2.1

/-- The member `HttpReq::put` keeps a growable request growable. -/
theorem put_growable_buf (s : HttpReq) (d : List Nat) (p : Bool)
    (hb : s.buf = none) : (s.put d p).buf = none := by
  simp only [HttpReq.put, hb]
  split <;> simp [hb]

/-- The member `HttpReq::purge` does not change the mode, the store or the cursor. -/
theorem purge_fields (s : HttpReq) (k : Nat) :
    (s.purge k).buf = s.buf ∧ (s.purge k).inBuf = s.inBuf ∧
    (s.purge k).inpurge = s.inpurge + k :=
  ⟨rfl, rfl, rfl⟩

/-- Appending to a growable buffer extends the readable view by the appended
bytes — whether or not the call physically compacts the purged prefix. -/
theorem put_growable_view (s : HttpReq) (d : List Nat) (p : Bool)
    (hb : s.buf = none) (hp : s.inpurge ≤ s.inBuf.length) :
    (s.put d p).viewData = s.viewData ++ d := by
  simp only [HttpReq.put, hb, HttpReq.viewData]
  split
  · simp
  · exact List.drop_append_of_le_length hp

/-- Appending to a growable buffer keeps the purge offset within the store. -/
theorem put_growable_inv (s : HttpReq) (d : List Nat) (p : Bool)
    (hb : s.buf = none) (hp : s.inpurge ≤ s.inBuf.length) :
    (s.put d p).inpurge ≤ (s.put d p).inBuf.length := by
  simp only [HttpReq.put, hb]
  split
  · simp
  · simp only [List.length_append]
    omega

/-- Purging `k` of the view and then dropping `P` more is dropping `k + P`
of the ingested stream, provided `k` stays within the view. -/
theorem drop_interchange (V A : List Nat) (k P : Nat) (hk : k ≤ V.length) :
    (V ++ A).drop (k + P) = ((V.drop k) ++ A).drop P := by
  rw [← List.drop_drop, List.drop_append_of_le_length hk]

/-- Core induction for C4: running any valid operation sequence from a
growable state whose purge offset is within the store yields the view
obtained by concatenating the pending view with everything appended and
dropping the total purged count. -/
theorem runOps_view (ops : List BufOp) (s : HttpReq)
    (hb : s.buf = none) (hp : s.inpurge ≤ s.inBuf.length)
    (hv : validOps s ops = true) :
    (runOps ops s).viewData = (s.viewData ++ appendedOf ops).drop (purgedOf ops) := by
  induction ops generalizing s with
  | nil => simp [runOps, appendedOf, purgedOf]
  | cons o rest ih =>
    cases o with
    | app d p =>
      have hstep : runOps (BufOp.app d p :: rest) s = runOps rest (s.put d p) := rfl
      have hv' : validOps (s.put d p) rest = true := hv
      rw [hstep, ih (s.put d p) (put_growable_buf s d p hb)
        (put_growable_inv s d p hb hp) hv']
      rw [put_growable_view s d p hb hp]
      simp only [purgedOf, appendedOf, List.append_assoc]
    | mark k =>
      have hv0 : (decide (k ≤ s.viewData.length) &&
          validOps (s.purge k) rest) = true := hv
      rw [Bool.and_eq_true, decide_eq_true_eq] at hv0
      obtain ⟨hk, hv'⟩ := hv0
      have hkk : k ≤ s.inBuf.length - s.inpurge := by
        simpa [HttpReq.viewData] using hk
      have hstep : runOps (BufOp.mark k :: rest) s = runOps rest (s.purge k) := rfl
      have hp' : (s.purge k).inpurge ≤ (s.purge k).inBuf.length := by
        simp only [HttpReq.purge]
        omega
      have hview : (s.purge k).viewData = s.viewData.drop k := by
        simp only [HttpReq.purge, HttpReq.viewData, List.drop_drop]
      rw [hstep, ih (s.purge k) hb hp' hv', hview]
      simp only [purgedOf, appendedOf]
      exact (drop_interchange s.viewData (appendedOf rest) k (purgedOf rest) hk).symm

/-- C4 (counterexample): append `[1]`, mark 2 bytes purged (more than is
available), then append `[2, 3]` with compaction allowed.  The code's
deferred compaction (`std::string::erase`, which clamps) forgets the excess
purge debt, so the final view is `[2, 3]` while the claimed
"ingested stream minus the first `Σkᵢ` bytes" is `[3]`. -/
theorem C4_counterexample :
    (runOps [BufOp.app [1] false, BufOp.mark 2, BufOp.app [2, 3] true]
        (HttpReq.init true)).viewData ≠
      (appendedOf [BufOp.app [1] false, BufOp.mark 2, BufOp.app [2, 3] true]).drop
        (purgedOf [BufOp.app [1] false, BufOp.mark 2, BufOp.app [2, 3] true]) := by
  decide

/-- C4 (amended): for every interleaved sequence of `append` and
`mark_purged` calls on a fresh growable buffer in which every `mark_purged k`
purges at most the unconsumed data available at that point, the readable
view equals the concatenation of all appended bytes with the first `Σkᵢ`
bytes removed — whether or not any call physically compacted the prefix. -/
theorem C4_amended (ops : List BufOp)
    (hv : validOps (HttpReq.init true) ops = true) :
    (runOps ops (HttpReq.init true)).viewData =
      (appendedOf ops).drop (purgedOf ops) := by
  have h := runOps_view ops (HttpReq.init true) rfl (by decide) hv
  simpa [HttpReq.viewData, HttpReq.init] using h

/-- C4 (witness): append `[1, 2, 3]`, purge 1, append `[4]` with compaction:
the view is `[2, 3, 4]`, the ingested stream minus its first byte. -/
theorem C4_amended_witness :
    validOps (HttpReq.init true)
      [BufOp.app [1, 2, 3] false, BufOp.mark 1, BufOp.app [4] true] = true ∧
    (runOps [BufOp.app [1, 2, 3] false, BufOp.mark 1, BufOp.app [4] true]
      (HttpReq.init true)).viewData = [2, 3, 4] := by
  refine ⟨by decide, ?_⟩
  have h := C4_amended
    [BufOp.app [1, 2, 3] false, BufOp.mark 1, BufOp.app [4] true] (by decide)
  rw [h]
  rfl

end HttpModel
